import Mathlib

/-!
Verification of the identity-reconciliation and extension-batching tool
(`gs-tools.py`).  The Python source is shallowly embedded below: pure string
manipulation becomes Lean functions on `String`/`List Char`, Python dicts
become insertion-ordered association lists, runtime exceptions become an
explicit `PyErr` error type carried in `Except`, and the interactive input
stream becomes an explicit script (a list of the strings `input()` would
return).  The fuzzy matcher is the standard library `difflib.get_close_matches`
(SequenceMatcher with `isjunk=None`, `autojunk=True`, `cutoff=0.6`), embedded
faithfully; similarity ratios are represented as exact `numerator/denominator`
pairs of naturals instead of IEEE doubles (for the short roster strings
involved the two orders coincide).  Lowercasing models CPython `str.lower`
on ASCII input, which is the case for all roster data considered here.
-/

/-- Python runtime exceptions that the embedded code can raise. -/
inductive PyErr where
  | unboundLocal
  | indexError
  | keyError
  | valueError
  | eofError
deriving DecidableEq

-- ---------------------------------------------------------------------------
-- String helpers (structural, so that the kernel can evaluate them)
-- ---------------------------------------------------------------------------

/-- `str.lower()` (ASCII). -/
def pyLower (s : String) : String :=
  String.mk (s.data.map Char.toLower)

/-- Does `s` start with the separator `sep`? -/
def startsWithSep : List Char → List Char → Bool
  | [], _ => true
  | _ :: _, [] => false
  | c :: cs, d :: ds => c == d && startsWithSep cs ds

/-- Worker for `pySplit`; `fuel` strictly exceeds the number of characters
left to scan, so the fuel-exhausted branch is never taken. -/
def pySplitAux (sep : List Char) : Nat → List Char → List Char → List (List Char)
  | 0, acc, s => [acc.reverse ++ s]
  | fuel + 1, acc, s =>
    if startsWithSep sep s then
      acc.reverse :: pySplitAux sep fuel [] (s.drop sep.length)
    else
      match s with
      | [] => [acc.reverse]
      | c :: cs => pySplitAux sep fuel (c :: acc) cs

/-- Python `s.split(sep)` for a non-empty separator. -/
def pySplit (sep : String) (s : String) : List String :=
  (pySplitAux sep.data (s.data.length + 1) [] s.data).map String.mk

/-- Python `s.isdigit()` (ASCII digits). -/
def pyIsDigit (s : String) : Bool :=
  !s.data.isEmpty && s.data.all Char.isDigit

/-- Python `int(s)` for a digit string. -/
def digitsToNat (l : List Char) : Nat :=
  l.foldl (fun acc c => acc * 10 + (c.toNat - 48)) 0

-- ---------------------------------------------------------------------------
-- Python dicts as insertion-ordered association lists
-- ---------------------------------------------------------------------------

/-- `d[k]`, as an `Option`. -/
def dictGet? (d : List (String × String)) (k : String) : Option String :=
  match d.find? (fun p => p.1 == k) with
  | some p => some p.2
  | none => none

/-- `d[k] = v`: update in place when the key exists, else append
(CPython dicts preserve insertion order). -/
def dictInsert (d : List (String × String)) (k v : String) : List (String × String) :=
  if d.any (fun p => p.1 == k) then
    d.map (fun p => if p.1 == k then (k, v) else p)
  else
    d ++ [(k, v)]

/-- `list(d.keys())`. -/
def dictKeys (d : List (String × String)) : List String :=
  d.map (fun p => p.1)

-- ---------------------------------------------------------------------------
-- normalize_name (gs-tools.py lines 33-41)
-- ---------------------------------------------------------------------------

/-- `normalize_name`.  The source reads

    split_name = name_str.split(",")
    if len(split_name) == 1:
        name = split_name[0]
    elif len(name) == 2:
        ...

so whenever the input contains a comma the condition `len(name) == 2`
reads the local variable `name` before any assignment to it, and the call
raises `UnboundLocalError`. -/
def normalize_name (name_str : String) : Except PyErr String :=
  let split_name := pySplit "," name_str
  if split_name.length == 1 then
    Except.ok (split_name.headD "")
  else
    Except.error PyErr.unboundLocal

-- ---------------------------------------------------------------------------
-- read_gradescope_roster (gs-tools.py lines 55-66)
-- ---------------------------------------------------------------------------

/-- One data row of a gradescope roster export: name, SID, email, role
(the columns the source indexes as entry[0], entry[1], entry[2], entry[3]). -/
structure GSRow where
  name : String
  sid : String
  email : String
  role : String
deriving DecidableEq

/-- The accumulator loop of `read_gradescope_roster`. -/
def readGSAux (acc : List (String × String)) : List GSRow → Except PyErr (List (String × String))
  | [] => Except.ok acc
  | entry :: rest =>
    if entry.role == "Student" then
      match normalize_name entry.name with
      | Except.error e => Except.error e
      | Except.ok name => readGSAux (dictInsert acc name entry.email) rest
    else
      readGSAux acc rest

/-- `read_gradescope_roster`, on the data rows that follow the header. -/
def read_gradescope_roster (rows : List GSRow) : Except PyErr (List (String × String)) :=
  readGSAux [] rows

-- ---------------------------------------------------------------------------
-- Forum-membership roster building (interactive_setup, lines 169-187)
-- ---------------------------------------------------------------------------

/-- A piazza user record as the source consumes it: a display name and the
`email` field, possibly several addresses separated by `", "`. -/
structure PZStudent where
  name : String
  email : String
deriving DecidableEq

/-- State built by the roster loop: the roster dict and the `sans_emails`
diagnostic list. -/
structure ForumRosterState where
  roster : List (String × String)
  sans_emails : List String
deriving DecidableEq

/-- The inner `for email in emails` loop with its `break`:
first component is `valid_email` after the loop (None or the first candidate
found in `valid_emails`), second component is the value the loop variable
`email` holds after the loop (none only when `emails` is empty). -/
def scanEmails (valid : List String) : List String → Option String × Option String
  | [] => (none, none)
  | e :: rest =>
    if valid.contains e then
      (some e, some e)
    else
      ((scanEmails valid rest).1, some ((scanEmails valid rest).2.getD e))

/-- One iteration of the `for student in students` loop.  Note that the
source stores the loop variable `email`, not `valid_email`, into the roster. -/
def buildForumStep (valid : List String) (st : ForumRosterState) (student : PZStudent) : ForumRosterState :=
  let name := pyLower student.name
  let emails := pySplit ", " student.email
  let scanned := scanEmails valid emails
  match scanned.1 with
  | none => { st with sans_emails := st.sans_emails ++ [name] }
  | some _ => { st with roster := dictInsert st.roster name (scanned.2.getD "") }

/-- The whole roster-building loop over the filtered forum students, against
the set of valid gradescope emails (modelled as a list, membership only). -/
def buildForumRoster (students : List PZStudent) (valid : List String) : ForumRosterState :=
  students.foldl (buildForumStep valid) ⟨[], []⟩

-- ---------------------------------------------------------------------------
-- difflib.get_close_matches (SequenceMatcher, isjunk=None, autojunk=True)
-- ---------------------------------------------------------------------------

/-- Ascending list of the indices at which `c` occurs, starting at `i`. -/
def elemIndicesAux (c : Char) : List Char → Nat → List Nat
  | [], _ => []
  | d :: ds, i =>
    if d == c then i :: elemIndicesAux c ds (i + 1) else elemIndicesAux c ds (i + 1)

/-- `b2j` from `SequenceMatcher.set_seq2`: the indices of `c` in `b`, with
the autojunk purge of popular elements when `len(b) >= 200`.  With
`isjunk=None` the junk set `bjunk` is empty. -/
def b2jFun (b : List Char) (c : Char) : List Nat :=
  let idxs := elemIndicesAux c b 0
  if b.length ≥ 200 && idxs.length > b.length / 100 + 1 then [] else idxs

/-- The running best match of `find_longest_match`. -/
structure Best where
  besti : Nat
  bestj : Nat
  bestsize : Nat
deriving DecidableEq

/-- `j2len.get(j, 0)` on the association-list representation of `j2len`. -/
def j2get (j2len : List (Nat × Nat)) (j : Nat) : Nat :=
  match j2len.find? (fun p => p.1 == j) with
  | some p => p.2
  | none => 0

/-- The inner `for j in b2j.get(a[i], nothing)` loop of `find_longest_match`:
skips `j < blo`, breaks at `j >= bhi`, builds `newj2len` and updates the best
block.  `i + 1 - k` is the Python `i - k + 1` (never negative here). -/
def flmRow (j2len : List (Nat × Nat)) (blo bhi i : Nat) :
    List Nat → List (Nat × Nat) → Best → List (Nat × Nat) × Best
  | [], acc, best => (acc, best)
  | j :: js, acc, best =>
    if j < blo then
      flmRow j2len blo bhi i js acc best
    else if bhi ≤ j then
      (acc, best)
    else
      let k := (if j == 0 then 0 else j2get j2len (j - 1)) + 1
      let acc2 := (j, k) :: acc
      let best2 := if best.bestsize < k then Best.mk (i + 1 - k) (j + 1 - k) k else best
      flmRow j2len blo bhi i js acc2 best2

/-- The outer `for i in range(alo, ahi)` loop of `find_longest_match`. -/
def flmRows (a : List Char) (b2jf : Char → List Nat) (blo bhi : Nat) :
    List Nat → List (Nat × Nat) → Best → Best
  | [], _, best => best
  | i :: is, j2len, best =>
    let row := flmRow j2len blo bhi i (b2jf (a.getD i (Char.ofNat 0))) [] best
    flmRows a b2jf blo bhi is row.1 row.2

/-- The first widening `while` of `find_longest_match`: extend the block
left while adjacent characters are equal (with `isjunk=None` the junk set is
empty, so `not isbjunk(...)` always holds and the later junk-extension loops
never fire).  `fuel` bounds the iteration count; out-of-range `getD` defaults
differ, so they never compare equal. -/
def extendLo (a b : List Char) (alo blo : Nat) : Nat → Best → Best
  | 0, best => best
  | fuel + 1, best =>
    if alo < best.besti && blo < best.bestj &&
        a.getD (best.besti - 1) (Char.ofNat 0) == b.getD (best.bestj - 1) (Char.ofNat 1) then
      extendLo a b alo blo fuel (Best.mk (best.besti - 1) (best.bestj - 1) (best.bestsize + 1))
    else
      best

/-- The second widening `while`: extend the block right while adjacent
characters are equal. -/
def extendHi (a b : List Char) (ahi bhi : Nat) : Nat → Best → Best
  | 0, best => best
  | fuel + 1, best =>
    if best.besti + best.bestsize < ahi && best.bestj + best.bestsize < bhi &&
        a.getD (best.besti + best.bestsize) (Char.ofNat 0)
          == b.getD (best.bestj + best.bestsize) (Char.ofNat 1) then
      extendHi a b ahi bhi fuel
        (Best.mk best.besti best.bestj (best.bestsize + 1))
    else
      best

/-- `SequenceMatcher.find_longest_match` on the slice `a[alo:ahi]`, `b[blo:bhi]`. -/
def find_longest_match (a b : List Char) (b2jf : Char → List Nat) (alo ahi blo bhi : Nat) : Best :=
  let best := flmRows a b2jf blo bhi (List.range' alo (ahi - alo)) [] (Best.mk alo blo 0)
  let best2 := extendLo a b alo blo best.besti best
  extendHi a b ahi bhi (ahi + 1) best2

/-- Total size of all matching blocks (`sum(k for _, _, k in get_matching_blocks())`),
by the same divide-and-conquer recursion the queue in `get_matching_blocks`
performs.  `fuel` strictly exceeds `ahi - alo` at every call, so the
fuel-exhausted branch is never taken. -/
def matchSum (a b : List Char) (b2jf : Char → List Nat) : Nat → Nat → Nat → Nat → Nat → Nat
  | 0, _, _, _, _ => 0
  | fuel + 1, alo, ahi, blo, bhi =>
    let best := find_longest_match a b b2jf alo ahi blo bhi
    if best.bestsize == 0 then 0
    else
      best.bestsize
        + matchSum a b b2jf fuel alo best.besti blo best.bestj
        + matchSum a b b2jf fuel (best.besti + best.bestsize) ahi (best.bestj + best.bestsize) bhi

/-- `SequenceMatcher.ratio()` as an exact fraction `(numerator, denominator)`:
`2.0 * matches / (len(a) + len(b))`, and `1.0` when both sequences are empty. -/
def ratioPair (a b : List Char) (b2jf : Char → List Nat) : Nat × Nat :=
  let m := matchSum a b b2jf (a.length + 1) 0 a.length 0 b.length
  let t := a.length + b.length
  if t == 0 then (1, 1) else (2 * m, t)

/-- Strict comparison of two ratio fractions (denominators are positive). -/
def ratioLt (p q : Nat × Nat) : Bool :=
  p.1 * q.2 < q.1 * p.2

/-- Python string `<` (lexicographic on code points). -/
def charListLt : List Char → List Char → Bool
  | [], [] => false
  | [], _ :: _ => true
  | _ :: _, [] => false
  | a :: as, b :: bs => if a < b then true else if b < a then false else charListLt as bs

/-- Python tuple `<` on `(score, string)` pairs, as `_nlargest` compares them. -/
def scoredLt (p q : (Nat × Nat) × String) : Bool :=
  ratioLt p.1 q.1 || (p.1.1 * q.1.2 == q.1.1 * p.1.2 && charListLt p.2.data q.2.data)

/-- Insert into a descending-sorted list (ties between fully equal tuples are
irrelevant; possibilities are distinct roster keys). -/
def insertDesc (p : (Nat × Nat) × String) : List ((Nat × Nat) × String) → List ((Nat × Nat) × String)
  | [] => [p]
  | q :: rest => if scoredLt q p then p :: q :: rest else q :: insertDesc p rest

/-- `difflib.get_close_matches(word, possibilities, n, cutoff=0.6)`.
The chained `real_quick_ratio / quick_ratio / ratio` cutoff test passes
exactly when `ratio >= cutoff`, because the first two are upper bounds of
`ratio`; `ratio >= 0.6` is the integer test `3 * den <= 5 * num`.
`_nlargest` is descending sort by `(score, x)` followed by `take n`. -/
def get_close_matches (word : String) (possibilities : List String) (n : Nat) : List String :=
  let b := word.data
  let b2jf := b2jFun b
  let scored := possibilities.filterMap (fun x =>
    let r := ratioPair x.data b b2jf
    if 3 * r.2 ≤ 5 * r.1 then some (r, x) else none)
  ((scored.foldr insertDesc []).take n).map (fun p => p.2)

-- ---------------------------------------------------------------------------
-- The matching pass of main_extend (gs-tools.py lines 254-274)
-- ---------------------------------------------------------------------------

/-- What the per-name branch of the `for raw_name in args.names` loop does. -/
inductive NameOutcome where
  | exact (email : String)
  | notFound
  | ambiguous (cands : List String)
  | crash
deriving DecidableEq

/-- One iteration of the matching loop: lowercase the query, try the exact
dict lookup, else fuzzy-match with `get_close_matches(student_name,
roster_names, n=5)`.  When exactly one close match comes back the source runs
`email = roster[close_matches[1]]`, and indexing a one-element list at 1
raises `IndexError`. -/
def processName (roster : List (String × String)) (raw_name : String) : NameOutcome :=
  let student_name := pyLower raw_name
  match dictGet? roster student_name with
  | some email => NameOutcome.exact email
  | none =>
    let close_matches := get_close_matches student_name (dictKeys roster) 5
    if close_matches.length == 1 then
      NameOutcome.crash
    else if close_matches.length == 0 then
      NameOutcome.notFound
    else
      NameOutcome.ambiguous close_matches

/-- Result of the main matching pass: the `apply_extension` calls made
(assignment title, email, days), the resolved emails, the pending ambiguity
queue `ambig_names`, and the names reported as not found. -/
structure MainResult where
  calls : List (String × String × Int)
  resolved : List String
  ambig : List (String × List String)
  notfound : List String
deriving DecidableEq

/-- Effect of an exact match: `assignment.apply_extension(roster[student_name],
args.days)` for every filtered assignment. -/
def addResolved (assignments : List String) (days : Int) (email : String) (m : MainResult) : MainResult :=
  { m with
    calls := assignments.map (fun a => (a, email, days)) ++ m.calls
    resolved := email :: m.resolved }

/-- Effect of a not-found name: reported, `continue`. -/
def addNotFound (name : String) (m : MainResult) : MainResult :=
  { m with notfound := name :: m.notfound }

/-- Effect of an ambiguous name: queued on `ambig_names`, `continue`. -/
def addAmbig (p : String × List String) (m : MainResult) : MainResult :=
  { m with ambig := p :: m.ambig }

/-- The `for raw_name in args.names` loop of `main_extend`. -/
def mainPass (roster : List (String × String)) (assignments : List String) (days : Int) :
    List String → Except PyErr MainResult
  | [] => Except.ok ⟨[], [], [], []⟩
  | raw_name :: rest =>
    match processName roster raw_name with
    | NameOutcome.crash => Except.error PyErr.indexError
    | NameOutcome.exact email =>
      (mainPass roster assignments days rest).map (addResolved assignments days email)
    | NameOutcome.notFound =>
      (mainPass roster assignments days rest).map (addNotFound (pyLower raw_name))
    | NameOutcome.ambiguous cands =>
      (mainPass roster assignments days rest).map (addAmbig (pyLower raw_name, cands))

-- ---------------------------------------------------------------------------
-- selection_helper (gs-tools.py lines 105-124) and the ambiguity pass
-- ---------------------------------------------------------------------------

/-- The `while ix is None` loop of `selection_helper`, consuming the input
script; `input()` on an exhausted stream raises `EOFError`.  Python computes
`int(ix) - 1`, so the index is an `Int` before the range check. -/
def selLoop (n : Nat) : List String → Except PyErr (Nat × List String)
  | [] => Except.error PyErr.eofError
  | s :: rest =>
    if pyIsDigit s then
      let ix : Int := (digitsToNat s.data : Int) - 1
      if ix < 0 || (n : Int) ≤ ix then selLoop n rest else Except.ok (ix.toNat, rest)
    else
      selLoop n rest

/-- `selection_helper(options, msg)` over an input script, returning the chosen
index and the unconsumed script.  Its first statement,
`longest_name_len = max(map(lambda x: len(x), options))`, raises `ValueError`
on an empty options list, before any input is read; `msg` is only printed. -/
def selection_helper (options : List String) (msg : String) (script : List String) :
    Except PyErr (Nat × List String) :=
  match options with
  | [] => Except.error PyErr.valueError
  | _ :: _ => selLoop options.length script

/-- Result of the interactive ambiguity pass. -/
structure AmbigResult where
  calls : List (String × String × Int)
  resolved : List String
  skipped : List String
deriving DecidableEq

/-- Effect of a selected candidate: `apply_extension(roster[student_name],
args.days)` for every filtered assignment. -/
def ambigResolved (assignments : List String) (days : Int) (email : String) (r : AmbigResult) : AmbigResult :=
  { r with
    calls := assignments.map (fun a => (a, email, days)) ++ r.calls
    resolved := email :: r.resolved }

/-- Effect of choosing "(None)": the query is skipped and reported. -/
def ambigSkip (name : String) (r : AmbigResult) : AmbigResult :=
  { r with skipped := name :: r.skipped }

/-- The `for (ambig_name, options) in ambig_names` loop of `main_extend`
(lines 276-285): present `options + ["(None)"]`, read a selection, skip on
"(None)", otherwise apply the extension for `roster[options[ix]]` to every
assignment.  A candidate missing from the roster would raise `KeyError`. -/
def ambigLoop (roster : List (String × String)) (assignments : List String) (days : Int) :
    List (String × List String) → List String → Except PyErr AmbigResult
  | [], _ => Except.ok ⟨[], [], []⟩
  | (ambig_name, options) :: rest, script =>
    match selection_helper (options ++ ["(None)"])
        "Select the number for the correct student (or none if none of these names match)" script with
    | Except.error e => Except.error e
    | Except.ok (ix, script2) =>
      if ix == options.length then
        (ambigLoop roster assignments days rest script2).map (ambigSkip ambig_name)
      else
        match dictGet? roster (options.getD ix "") with
        | none => Except.error PyErr.keyError
        | some email =>
          (ambigLoop roster assignments days rest script2).map (ambigResolved assignments days email)

/-- Aggregate outcome of a `main_extend` run (after the argument parsing and
assignment filtering that are out of the embedded core): all extension calls
made, all resolved emails, the not-found reports and the explicit skips. -/
structure RunResult where
  calls : List (String × String × Int)
  resolved : List String
  notfound : List String
  skipped : List String
deriving DecidableEq

/-- The two ordered stages of `main_extend`: the main matching pass over the
supplied names, then the interactive resolution of the accumulated
ambiguities. -/
def main_extend_run (roster : List (String × String)) (assignments : List String) (days : Int)
    (names : List String) (script : List String) : Except PyErr RunResult :=
  match mainPass roster assignments days names with
  | Except.error e => Except.error e
  | Except.ok m =>
    match ambigLoop roster assignments days m.ambig script with
    | Except.error e => Except.error e
    | Except.ok a =>
      Except.ok ⟨m.calls ++ a.calls, m.resolved ++ a.resolved, m.notfound, a.skipped⟩

-- ---------------------------------------------------------------------------
-- Helper lemmas
-- ---------------------------------------------------------------------------

/-- Inversion for `Except.map` hitting `ok`. -/
theorem except_map_ok {α β : Type} (f : α → β) (x : Except PyErr α) (b : β)
    (h : Except.map f x = Except.ok b) : ∃ a, x = Except.ok a ∧ b = f a := by
  cases x with
  | error e => simp [Except.map] at h
  | ok a =>
    refine ⟨a, rfl, ?_⟩
    simpa [Except.map] using h.symm

/-- `valid_email` after the inner loop is the first candidate found in the
valid set. -/
theorem scanEmails_fst (valid : List String) :
    ∀ l : List String, (scanEmails valid l).1 = l.find? (fun e => valid.contains e) := by
  intro l
  induction l with
  | nil => rfl
  | cons e rest ih =>
    by_cases he : e ∈ valid
    · simp [scanEmails, List.find?, he]
    · simp [scanEmails, List.find?, he, ih]

/-- When the inner loop found a valid candidate, the loop variable `email`
holds exactly that candidate afterwards, and it is in the valid set. -/
theorem scanEmails_found (valid : List String) :
    ∀ (l : List String) (v : String), (scanEmails valid l).1 = some v →
      (scanEmails valid l).2 = some v ∧ valid.contains v = true := by
  intro l
  induction l with
  | nil => intro v h; simp [scanEmails] at h
  | cons e rest ih =>
    intro v h
    by_cases he : e ∈ valid
    · rw [scanEmails, if_pos (by simp [he])] at h
      obtain rfl : e = v := by simpa using h
      rw [scanEmails, if_pos (by simp [he])]
      exact ⟨rfl, by simp [he]⟩
    · rw [scanEmails, if_neg (by simp [he])] at h
      obtain ⟨h2, h3⟩ := ih v h
      rw [scanEmails, if_neg (by simp [he])]
      refine ⟨?_, h3⟩
      simp [h2]

/-- Membership after a dict store comes from the old dict or is the new pair. -/
theorem dictInsert_mem (d : List (String × String)) (k v k2 v2 : String)
    (h : (k, v) ∈ dictInsert d k2 v2) : (k, v) ∈ d ∨ (k = k2 ∧ v = v2) := by
  unfold dictInsert at h
  split at h
  · obtain ⟨p, hp, he⟩ := List.mem_map.mp h
    by_cases hk : p.1 == k2
    · rw [if_pos hk] at he
      right
      cases he
      exact ⟨rfl, rfl⟩
    · rw [if_neg hk] at he
      left
      rwa [he] at hp
  · rcases List.mem_append.mp h with h1 | h1
    · exact Or.inl h1
    · right
      rcases List.mem_singleton.mp h1 with he
      cases he
      exact ⟨rfl, rfl⟩

/-- Cross-product accounting for the main matching pass. -/
theorem mainPass_ok (roster : List (String × String)) (assignments : List String) (days : Int) :
    ∀ (names : List String) (m : MainResult),
      mainPass roster assignments days names = Except.ok m →
      m.calls.length = m.resolved.length * assignments.length ∧
        ∀ e ∈ m.resolved, ∀ a ∈ assignments, (a, e, days) ∈ m.calls := by
  intro names
  induction names with
  | nil =>
    intro m h
    cases h
    exact ⟨by simp, by simp⟩
  | cons raw rest ih =>
    intro m h
    rw [mainPass] at h
    cases hp : processName roster raw with
    | crash => rw [hp] at h; cases h
    | exact email =>
      rw [hp] at h
      obtain ⟨m2, hm2, rfl⟩ := except_map_ok _ _ _ h
      obtain ⟨ih1, ih2⟩ := ih m2 hm2
      constructor
      · simp only [addResolved, List.length_append, List.length_map, List.length_cons, ih1]
        ring
      · intro e he a ha
        simp only [addResolved, List.mem_cons] at he ⊢
        rcases he with rfl | he
        · exact List.mem_append_left _ (List.mem_map.mpr ⟨a, ha, rfl⟩)
        · exact List.mem_append_right _ (ih2 e he a ha)
    | notFound =>
      rw [hp] at h
      obtain ⟨m2, hm2, rfl⟩ := except_map_ok _ _ _ h
      obtain ⟨ih1, ih2⟩ := ih m2 hm2
      exact ⟨ih1, ih2⟩
    | ambiguous cands =>
      rw [hp] at h
      obtain ⟨m2, hm2, rfl⟩ := except_map_ok _ _ _ h
      obtain ⟨ih1, ih2⟩ := ih m2 hm2
      exact ⟨ih1, ih2⟩

/-- Cross-product accounting for the interactive ambiguity pass. -/
theorem ambigLoop_ok (roster : List (String × String)) (assignments : List String) (days : Int) :
    ∀ (pending : List (String × List String)) (script : List String) (r : AmbigResult),
      ambigLoop roster assignments days pending script = Except.ok r →
      r.calls.length = r.resolved.length * assignments.length ∧
        ∀ e ∈ r.resolved, ∀ a ∈ assignments, (a, e, days) ∈ r.calls := by
  intro pending
  induction pending with
  | nil =>
    intro script r h
    cases h
    exact ⟨by simp, by simp⟩
  | cons item rest ih =>
    intro script r h
    obtain ⟨ambig_name, options⟩ := item
    rw [ambigLoop] at h
    split at h
    · exact absurd h (by simp)
    · split at h
      · obtain ⟨r2, hr2, rfl⟩ := except_map_ok _ _ _ h
        exact ih _ r2 hr2
      · split at h
        · exact absurd h (by simp)
        · obtain ⟨r2, hr2, rfl⟩ := except_map_ok _ _ _ h
          obtain ⟨ih1, ih2⟩ := ih _ r2 hr2
          constructor
          · simp only [ambigResolved, List.length_append, List.length_map, List.length_cons, ih1]
            ring
          · intro e he a ha
            simp only [ambigResolved, List.mem_cons] at he ⊢
            rcases he with rfl | he
            · exact List.mem_append_left _ (List.mem_map.mpr ⟨a, ha, rfl⟩)
            · exact List.mem_append_right _ (ih2 e he a ha)

-- ---------------------------------------------------------------------------
-- Claim theorems
-- ---------------------------------------------------------------------------

/-- C1: the claim says a query with exactly one close fuzzy candidate resolves
to that candidate's roster entry.  The code instead runs
`email = roster[close_matches[1]]`, indexing position 1 of a one-element list,
which raises `IndexError`: on the roster `{"jane doe": "jane@x.edu"}` the query
`"jane d"` has exactly one close candidate, and the matching pass crashes
instead of binding `jane@x.edu`. -/
theorem c1_unique_close_match_crashes :
    processName [("jane doe", "jane@x.edu")] "jane d" = NameOutcome.crash := by
  rfl

/-- C2: the claim says `normalize_name "Doe, Jane" = "Jane Doe"` and
`normalize_name "Jane Doe" = "Jane Doe"`.  The zero-comma half holds, but on
`"Doe, Jane"` the code raises `UnboundLocalError` (the branch condition
`len(name) == 2` reads `name` before assignment), so the one-comma half fails. -/
theorem c2_normalize_name_on_examples :
    normalize_name "Doe, Jane" = Except.error PyErr.unboundLocal ∧
      normalize_name "Jane Doe" = Except.ok "Jane Doe" := by
  exact ⟨rfl, rfl⟩

/-- C3: the claim says `normalize_name` is total with no failure mode; in fact
every input containing a comma makes it raise `UnboundLocalError`, e.g.
`"Doe, Jane"`. -/
theorem c3_normalize_name_not_total :
    (normalize_name "Doe, Jane").isOk = false := by
  rfl

/-- C4 counterexample: the claim says matching any roster key against the
roster yields the exact match case-insensitively.  With the key `"Jane Doe"`
stored in original case (as the gradescope roster builder stores it), querying
that very key does not produce the exact match: the lowercased query misses
the dict lookup, falls to the fuzzy path, and hits the single-close-match
crash. -/
theorem c4_exact_match_cex :
    processName [("Jane Doe", "jane@x.edu")] "Jane Doe" ≠ NameOutcome.exact "jane@x.edu" := by
  decide

/-- C4 amended: exact matching holds precisely when the lowercased query is
literally a roster key: whenever `roster[q.lower()]` is defined, the matching
pass returns the exact match bound to it.  (Case-insensitivity therefore holds
only for rosters whose keys are stored lowercased, as the piazza-side builders
produce; keys stored with uppercase letters are not found by their own exact
form.) -/
theorem c4_exact_match_lowercase_key (roster : List (String × String)) (q e : String)
    (h : dictGet? roster (pyLower q) = some e) :
    processName roster q = NameOutcome.exact e := by
  simp [processName, h]

/-- C4 witness: a lowercase-keyed roster hit through `c4_exact_match_lowercase_key`. -/
theorem c4_exact_match_lowercase_key_witness :
    dictGet? [("jane doe", "jane@x.edu")] (pyLower "Jane Doe") = some "jane@x.edu" ∧
      processName [("jane doe", "jane@x.edu")] "Jane Doe" = NameOutcome.exact "jane@x.edu" :=
  ⟨rfl, c4_exact_match_lowercase_key [("jane doe", "jane@x.edu")] "Jane Doe" "jane@x.edu" rfl⟩

/-- C5: the claim says the gradescope export with the Jane/Bob rows builds the
roster `{"Jane Doe": "jane@x.edu"}`.  The builder calls `normalize_name` on
`"Doe, Jane"`, which raises `UnboundLocalError`, so no roster is produced at
all. -/
theorem c5_gradescope_roster_crashes :
    read_gradescope_roster
        [⟨"Doe, Jane", "S1", "jane@x.edu", "Student"⟩, ⟨"Smith, Bob", "S2", "bob@x.edu", "TA"⟩]
      = Except.error PyErr.unboundLocal := by
  rfl

/-- C6: forum-membership roster building.  (i) The concrete example: student
"jane doe" with candidates `jane@y.edu, jane@x.edu` against valid set
`{jane@x.edu}` binds `"jane doe" -> "jane@x.edu"` with nothing unmatched.
(ii) In general, a student whose candidate list contains a member of the valid
set has the first such candidate bound under the lowercased student name, and
(iii) a student with no valid candidate is appended to the unmatched
diagnostic list while the roster is left unchanged, and in either case the
fold proceeds with the remaining students (non-fatal). -/
theorem c6_forum_membership_roster :
    (buildForumRoster [⟨"jane doe", "jane@y.edu, jane@x.edu"⟩] ["jane@x.edu"]
        = ⟨[("jane doe", "jane@x.edu")], []⟩) ∧
    (∀ (valid : List String) (st : ForumRosterState) (student : PZStudent) (e : String),
      (pySplit ", " student.email).find? (fun c => valid.contains c) = some e →
      buildForumStep valid st student
        = { st with roster := dictInsert st.roster (pyLower student.name) e }) ∧
    (∀ (valid : List String) (st : ForumRosterState) (student : PZStudent),
      (pySplit ", " student.email).find? (fun c => valid.contains c) = none →
      buildForumStep valid st student
        = { st with sans_emails := st.sans_emails ++ [pyLower student.name] }) := by
  refine ⟨by decide, ?_, ?_⟩
  · intro valid st student e h
    have h1 : (scanEmails valid (pySplit ", " student.email)).1 = some e := by
      rw [scanEmails_fst]; exact h
    obtain ⟨h2, _⟩ := scanEmails_found valid (pySplit ", " student.email) e h1
    simp [buildForumStep, h1, h2]
  · intro valid st student h
    have h1 : (scanEmails valid (pySplit ", " student.email)).1 = none := by
      rw [scanEmails_fst]; exact h
    simp [buildForumStep, h1]

/-- C6 witness: both general branches of `c6_forum_membership_roster`
discharged at concrete students. -/
theorem c6_forum_membership_roster_witness :
    ((pySplit ", " "jane@y.edu, jane@x.edu").find? (fun c => (["jane@x.edu"]).contains c)
        = some "jane@x.edu") ∧
    (buildForumStep ["jane@x.edu"] ⟨[], []⟩ ⟨"jane doe", "jane@y.edu, jane@x.edu"⟩
        = ⟨[("jane doe", "jane@x.edu")], []⟩) ∧
    (buildForumStep ["jane@x.edu"] ⟨[], []⟩ ⟨"No Match", "a@b.edu"⟩
        = ⟨[], ["no match"]⟩) :=
  ⟨rfl,
    c6_forum_membership_roster.2.1 ["jane@x.edu"] ⟨[], []⟩
      ⟨"jane doe", "jane@y.edu, jane@x.edu"⟩ "jane@x.edu" rfl,
    c6_forum_membership_roster.2.2 ["jane@x.edu"] ⟨[], []⟩ ⟨"No Match", "a@b.edu"⟩ rfl⟩

/-- C7: a query with zero close candidates is recorded as not found and the
pass over the remaining names is exactly the pass without that query — in
particular its `calls` component is unchanged, so no extension call is made
for the not-found name, and the batch continues. -/
theorem c7_notfound_continues (roster : List (String × String)) (assignments : List String)
    (days : Int) (raw_name : String) (rest : List String)
    (h : processName roster raw_name = NameOutcome.notFound) :
    mainPass roster assignments days (raw_name :: rest)
      = (mainPass roster assignments days rest).map (addNotFound (pyLower raw_name)) := by
  rw [mainPass, h]

/-- C7 witness: `"zzzz"` has no close candidate in the roster, is reported,
and the rest of the batch proceeds unchanged. -/
theorem c7_notfound_continues_witness :
    processName [("jane doe", "jane@x.edu")] "zzzz" = NameOutcome.notFound ∧
      mainPass [("jane doe", "jane@x.edu")] ["hw1"] 5 ["zzzz", "jane doe"]
        = (mainPass [("jane doe", "jane@x.edu")] ["hw1"] 5 ["jane doe"]).map
            (addNotFound (pyLower "zzzz")) :=
  ⟨rfl, c7_notfound_continues [("jane doe", "jane@x.edu")] ["hw1"] 5 "zzzz" ["jane doe"] rfl⟩

/-- C8: whenever a `main_extend` run completes, the extension calls it made
are exactly the cross product of the resolved students (main pass and
interactively resolved alike) with the filtered assignments: their number is
N×M, and every (assignment, resolved email) pair receives a call with the
given days offset. -/
theorem c8_cross_product (roster : List (String × String)) (assignments : List String)
    (days : Int) (names script : List String) (r : RunResult)
    (h : main_extend_run roster assignments days names script = Except.ok r) :
    r.calls.length = r.resolved.length * assignments.length ∧
      ∀ e ∈ r.resolved, ∀ a ∈ assignments, (a, e, days) ∈ r.calls := by
  rw [main_extend_run] at h
  split at h
  · exact absurd h (by simp)
  · split at h
    · exact absurd h (by simp)
    · rename_i xm m hm xa a2 ha2
      cases h
      obtain ⟨m1, m2⟩ := mainPass_ok roster assignments days names m hm
      obtain ⟨a1, a3⟩ := ambigLoop_ok roster assignments days m.ambig _ a2 ha2
      constructor
      · simp only [List.length_append, m1, a1, Nat.add_mul]
      · intro e he a ha
        rcases List.mem_append.mp he with he | he
        · exact List.mem_append_left _ (m2 e he a ha)
        · exact List.mem_append_right _ (a3 e he a ha)

/-- C8 witness: a two-assignment batch where one name resolves exactly and one
resolves interactively; the run makes 2×2 calls covering the cross product. -/
theorem c8_cross_product_witness :
    main_extend_run [("jane doe", "jane@x.edu"), ("jane dot", "dot@x.edu")] ["hw1", "hw2"] 5
        ["jane doe", "jane do"] ["1"]
      = Except.ok ⟨[("hw1", "jane@x.edu", 5), ("hw2", "jane@x.edu", 5),
          ("hw1", "dot@x.edu", 5), ("hw2", "dot@x.edu", 5)],
          ["jane@x.edu", "dot@x.edu"], [], []⟩ ∧
    (RunResult.mk [("hw1", "jane@x.edu", 5), ("hw2", "jane@x.edu", 5),
          ("hw1", "dot@x.edu", 5), ("hw2", "dot@x.edu", 5)]
          ["jane@x.edu", "dot@x.edu"] [] []).calls.length
      = (RunResult.mk [("hw1", "jane@x.edu", 5), ("hw2", "jane@x.edu", 5),
          ("hw1", "dot@x.edu", 5), ("hw2", "dot@x.edu", 5)]
          ["jane@x.edu", "dot@x.edu"] [] []).resolved.length * 2 :=
  ⟨rfl,
    (c8_cross_product [("jane doe", "jane@x.edu"), ("jane dot", "dot@x.edu")] ["hw1", "hw2"] 5
      ["jane doe", "jane do"] ["1"] _ rfl).1⟩

/-- C9: `selection_helper` on an empty options list fails with `ValueError`
for every prompt message and every input script (the `max` over the empty
length sequence raises before any input is read), so it never returns an
index. -/
theorem c9_selection_helper_empty (msg : String) (script : List String) :
    selection_helper [] msg script = Except.error PyErr.valueError := by
  rfl

/-- C9 witness: the empty-options failure at the default prompt. -/
theorem c9_selection_helper_empty_witness :
    selection_helper [] "Enter a number (i) corresponding to the desired choice:" ["1"]
      = Except.error PyErr.valueError :=
  c9_selection_helper_empty "Enter a number (i) corresponding to the desired choice:" ["1"]

/-- C10: every email stored by the forum-membership roster builder is a member
of the grading-platform valid-email set: although the source stores the inner
loop variable `email` rather than `valid_email`, at the point of insertion
that loop variable equals the first candidate found in the valid set. -/
theorem c10_forum_roster_emails_valid (students : List PZStudent) (valid : List String)
    (k v : String) (h : (k, v) ∈ (buildForumRoster students valid).roster) :
    valid.contains v = true := by
  suffices H : ∀ (l : List PZStudent) (st : ForumRosterState),
      (∀ k2 v2, (k2, v2) ∈ st.roster → valid.contains v2 = true) →
      ∀ k2 v2, (k2, v2) ∈ (l.foldl (buildForumStep valid) st).roster →
        valid.contains v2 = true by
    exact H students ⟨[], []⟩ (by intro k2 v2 h2; simp at h2) k v h
  intro l
  induction l with
  | nil =>
    intro st hst k2 v2 h2
    exact hst k2 v2 h2
  | cons student rest ih =>
    intro st hst k2 v2 h2
    refine ih (buildForumStep valid st student) ?_ k2 v2 h2
    intro k3 v3 h3
    cases hscan : (scanEmails valid (pySplit ", " student.email)).1 with
    | none =>
      simp only [buildForumStep, hscan] at h3
      exact hst k3 v3 h3
    | some w =>
      obtain ⟨hw2, hw3⟩ := scanEmails_found valid (pySplit ", " student.email) w hscan
      simp only [buildForumStep, hscan, hw2, Option.getD_some] at h3
      rcases dictInsert_mem _ _ _ _ _ h3 with h4 | ⟨rfl, rfl⟩
      · exact hst k3 v3 h4
      · exact hw3

/-- C10 witness: the concrete jane-doe roster entry produced by the builder is
in the valid set. -/
theorem c10_forum_roster_emails_valid_witness :
    (("jane doe", "jane@x.edu")
        ∈ (buildForumRoster [⟨"jane doe", "jane@y.edu, jane@x.edu"⟩] ["jane@x.edu"]).roster) ∧
      (["jane@x.edu"] : List String).contains "jane@x.edu" = true :=
  ⟨by decide,
    c10_forum_roster_emails_valid [⟨"jane doe", "jane@y.edu, jane@x.edu"⟩] ["jane@x.edu"]
      "jane doe" "jane@x.edu" (by decide)⟩
